import Mathlib

/-!
Verification of the Tarini agent backend runtime (deep-merge state store,
tool dispatcher, bounded tool-use loop, session cache manager, SSE keepalive
bridge), shallowly embedded from `backend/tarini` and `backend/server.py`.
-/

/-- JSON values as stored in the session `state` JSONB column and passed
through tool inputs/results. Objects are insertion-ordered key/value lists,
mirroring Python dict semantics. -/
inductive Json where
  | str (s : String)
  | num (n : Int)
  | bool (b : Bool)
  | null
  | arr (elems : List Json)
  | obj (fields : List (String × Json))

/-- Python `d.get(k)` on an insertion-ordered dict: first binding wins
(keys are unique in real dicts). -/
def dict_get {α : Type} : List (String × α) → String → Option α
  | [], _ => none
  | (k, v) :: rest, key => if k = key then some v else dict_get rest key

/-- Python `d[k] = v`: replace the value in place if the key exists
(keeping its position), else append the new binding. -/
def dict_set {α : Type} : List (String × α) → String → α → List (String × α)
  | [], key, v => [(key, v)]
  | (k, w) :: rest, key, v =>
      if k = key then (k, v) :: rest else (k, w) :: dict_set rest key v

mutual

/-- Recursively merge `updates` into `base`
(`backend/tarini/tools/state.py` `_deep_merge`):
dicts are merged recursively; all other types — including lists — are
overwritten wholesale. Iterates over the bindings of `updates` in order,
assigning into a copy of `base`. -/
def _deep_merge (base : List (String × Json)) : List (String × Json) → List (String × Json)
  | [] => base
  | (key, value) :: rest =>
      _deep_merge (dict_set base key (mergeValue (dict_get base key) value)) rest
termination_by updates => sizeOf updates
decreasing_by
  all_goals simp_wf
  all_goals first
    | (simp only [List.cons.sizeOf_spec, Prod.mk.sizeOf_spec, Json.obj.sizeOf_spec]; omega)
    | omega

/-- The per-key decision of `_deep_merge`: when the existing value and the
update value are both dicts, merge them recursively; otherwise the update
value overwrites wholesale. -/
def mergeValue : Option Json → Json → Json
  | some (Json.obj bv), Json.obj uv => Json.obj (_deep_merge bv uv)
  | _, v => v
termination_by o v => sizeOf v
decreasing_by
  all_goals simp_wf
  all_goals first
    | (simp only [List.cons.sizeOf_spec, Prod.mk.sizeOf_spec, Json.obj.sizeOf_spec]; omega)
    | omega

end

/-- Python truthiness (`not x`) restricted to JSON values: empty string,
zero, False, None, empty list and empty dict are falsy. -/
def pyFalsy : Json → Bool
  | Json.str s => s == ""
  | Json.num n => n == 0
  | Json.bool b => !b
  | Json.null => true
  | Json.arr elems => elems.isEmpty
  | Json.obj fields => fields.isEmpty

/-- A content block of an assistant turn, as produced by the model gateway
and serialised by `_serialize_content` in `backend/tarini/agent.py`:
either plain text or a tool-invocation request. -/
inductive Block where
  | text (t : String)
  | tool_use (id : String) (name : String) (input : List (String × Json))

/-- A tool_result entry sent back to the gateway: the invocation id it
answers plus the dispatcher result (a JSON string in Python, modelled as
the JSON value it encodes). -/
structure ToolResultBlock where
  tool_use_id : String
  content : Json

/-- Content of one history turn: user text, serialised assistant blocks,
or a bundle of tool results (sent with role "user"). -/
inductive MContent where
  | str (s : String)
  | blocks (bs : List Block)
  | toolResults (rs : List ToolResultBlock)

/-- One turn of the conversation history (`messages` JSONB column). -/
structure Message where
  role : String
  content : MContent

/-- A row of the `sessions` table (`backend/tarini/db/schema.sql`):
stage (default `intro`), state JSONB (default `{}`), monotonically
increasing `state_version` (default 1), and the persisted history. -/
structure Session where
  stage : String
  state : List (String × Json)
  state_version : Nat
  messages : List Message

/-- The durable store: the `sessions` table keyed by session id. -/
abbrev DB := List (String × Session)

namespace db

/-- db/client.py `get_session`: fetch a session by id, `None` if absent. -/
def get_session (d : DB) (session_id : String) : Option Session :=
  dict_get d session_id

/-- db/client.py `load_messages`: the session history, `[]` if the row is
absent or the column empty. -/
def load_messages (d : DB) (session_id : String) : List Message :=
  match dict_get d session_id with
  | none => []
  | some s => s.messages

/-- db/client.py `save_messages`: update the `messages` column of the row
with this id; a missing row means no row is updated. -/
def save_messages (d : DB) (session_id : String) (messages : List Message) : DB :=
  match dict_get d session_id with
  | none => d
  | some s => dict_set d session_id { s with messages := messages }

/-- db/client.py `update_session_state` backed by the
`update_session_state_atomic` RPC (schema.sql): in one statement, replace
`state` and increment `state_version`. `none` models the `ValueError`
raised when the row is absent (RPC returns no rows). -/
def update_session_state (d : DB) (session_id : String)
    (new_state : List (String × Json)) : Option (DB × Session) :=
  match dict_get d session_id with
  | none => none
  | some s =>
      let s2 := { s with state := new_state, state_version := s.state_version + 1 }
      some (dict_set d session_id s2, s2)

/-- db/client.py `advance_stage`: update the `stage` column and return the
row; `none` models the `IndexError` on `result.data[0]` when no row
matched. -/
def advance_stage (d : DB) (session_id : String) (stage : String) :
    Option (DB × Session) :=
  match dict_get d session_id with
  | none => none
  | some s =>
      let s2 := { s with stage := stage }
      some (dict_set d session_id s2, s2)

/-- db/client.py `create_session`: insert a row with the schema defaults
(stage `intro`, empty state, version 1, empty history). The id is
generated server-side; modelled as a parameter. -/
def create_session (d : DB) (session_id : String) : DB × Session :=
  let s : Session := { stage := "intro", state := [], state_version := 1, messages := [] }
  (dict_set d session_id s, s)

end db

/-- tools/state.py `VALID_STAGES`. -/
def VALID_STAGES : List String :=
  ["intro", "structure", "packages", "mapping", "verification"]

/-- Python `str.strip()`: remove leading and trailing whitespace. -/
def pyStrip (s : String) : String :=
  ⟨((s.data.dropWhile Char.isWhitespace).reverse.dropWhile Char.isWhitespace).reverse⟩

/-- A tool result of the shape (error: msg). -/
def mkToolError (msg : String) : Json := Json.obj [("error", Json.str msg)]

/-- tools/state.py `get_state`: return stage, state and version as a JSON
tool result; an absent session yields a (non-terminal) error result. -/
def get_state (d : DB) (session_id : String) : Json :=
  match db.get_session d session_id with
  | none => mkToolError "Session not found"
  | some session =>
      Json.obj [("stage", Json.str session.stage),
                ("state", Json.obj session.state),
                ("state_version", Json.num (session.state_version : Int))]

/-- tools/state.py `update_state`: reject a falsy `updates` payload, then
deep-merge into the current state and persist atomically with version+1.
`none` models an uncaught exception (`ValueError` from the db layer, or
`AttributeError` when a truthy non-dict reaches `_deep_merge`). -/
def update_state (d : DB) (session_id : String) (updates : Json) :
    Option (DB × Json) :=
  if pyFalsy updates then some (d, mkToolError "No updates provided")
  else
    match db.get_session d session_id with
    | none => some (d, mkToolError "Session not found")
    | some session =>
        match updates with
        | Json.obj ups =>
            let current_state := session.state
            let new_state := _deep_merge current_state ups
            match db.update_session_state d session_id new_state with
            | none => none
            | some (d2, updated) =>
                some (d2, Json.obj [("saved", Json.bool true),
                                    ("state_version", Json.num (updated.state_version : Int)),
                                    ("state", Json.obj updated.state)])
        | _ => none

/-- tools/state.py `advance_stage`: strip the argument, reject values
outside `VALID_STAGES` with an error result, else persist the new stage. -/
def advance_stage (d : DB) (session_id : String) (stage0 : String) :
    Option (DB × Json) :=
  let stage := pyStrip stage0
  if stage ∈ VALID_STAGES then
    match db.advance_stage d session_id stage with
    | none => none
    | some (d2, updated) =>
        some (d2, Json.obj [("stage", Json.str updated.stage),
                            ("advanced", Json.bool true)])
  else
    some (d, mkToolError ("Invalid stage: \x27" ++ stage ++
      "\x27. Must be one of: " ++ String.intercalate ", " VALID_STAGES))

/-- tools/__init__.py `execute_tool`: string-keyed dispatch to the three
tools; an unknown name returns an error-text result instead of raising.
`tool_input.get` defaults mirror the Python `.get(key, default)` calls;
a truthy non-string `stage` would crash on `.strip()` (`none`). -/
def execute_tool (d : DB) (session_id : String) (tool_name : String)
    (tool_input : List (String × Json)) : Option (DB × Json) :=
  if tool_name = "get_state" then some (d, get_state d session_id)
  else if tool_name = "update_state" then
    update_state d session_id ((dict_get tool_input "updates").getD (Json.obj []))
  else if tool_name = "advance_stage" then
    match (dict_get tool_input "stage").getD (Json.str "") with
    | Json.str s => advance_stage d session_id s
    | v => if pyFalsy v then advance_stage d session_id "" else none
  else some (d, Json.obj [("error", Json.str ("Unknown tool: " ++ tool_name))])

/-- A tool result reporting a successful write (`"saved": true`). -/
def isSaved (r : Json) : Bool :=
  match r with
  | Json.obj fields =>
      match dict_get fields "saved" with
      | some (Json.bool true) => true
      | _ => false
  | _ => false

/-- A sequence of write-tool calls, each required to succeed
(result flagged `saved`); `none` if any call fails or raises. -/
def writeSeq (d : DB) (session_id : String) :
    List (List (String × Json)) → Option DB
  | [] => some d
  | p :: ps =>
      match update_state d session_id (Json.obj p) with
      | none => none
      | some (d2, r) => if isSaved r then writeSeq d2 session_id ps else none

/-- SSE events of the exchange stream (server.py event format), plus the
synthetic `thinking` keepalive. -/
inductive Event where
  | text (t : String)
  | thinking
  | done
  | error (message : String)
deriving DecidableEq

/-- A terminal event ends the stream (`done` or `error`). -/
def Event.isTerminal : Event → Bool
  | Event.done => true
  | Event.error _ => true
  | _ => false

def Event.isText : Event → Bool
  | Event.text _ => true
  | _ => false

def Block.isToolUse : Block → Bool
  | Block.tool_use _ _ _ => true
  | _ => false

/-- The final bundle of one gateway round: streamed text deltas, the full
assistant content, and the stop reason. -/
structure ModelTurn where
  deltas : List String
  content : List Block
  stop_reason : String

/-- The model gateway (agent.py `client.messages.stream`) as an oracle from
the submitted history to the round's final turn; `none` models a transport
or protocol exception propagating out of the adapter. -/
abbrev Oracle := List Message → Option ModelTurn

/-- agent.py `MAX_TOOL_ROUNDS`: safety limit to prevent infinite tool loops. -/
def MAX_TOOL_ROUNDS : Nat := 10

/-- agent.py `_serialize_content`: SDK content blocks (text / tool_use) as
plain dicts; on this model's block type it is the identity. -/
def _serialize_content (content : List Block) : List Block := content

/-- The strictly sequential tool-dispatch loop inside one `stream_chat`
round: dispatch each tool_use block via `execute_tool`, collecting the
results tagged with the invocation id. A raised exception (`none`) keeps
the store mutations already made. -/
def run_tool_blocks (session_id : String) :
    DB → List Block → DB × Option (List ToolResultBlock)
  | d, [] => (d, some [])
  | d, Block.text _ :: rest => run_tool_blocks session_id d rest
  | d, Block.tool_use bid name input :: rest =>
      match execute_tool d session_id name input with
      | none => (d, none)
      | some (d1, r) =>
          match run_tool_blocks session_id d1 rest with
          | (d2, none) => (d2, none)
          | (d2, some rs) => (d2, some (⟨bid, r⟩ :: rs))

/-- Result of one `stream_chat` invocation: the yielded events, the store
and (mutated-in-place) history as left behind, the number of gateway
rounds executed, and whether an exception escaped the generator. -/
structure LoopResult where
  events : List Event
  db : DB
  history : List Message
  rounds : Nat
  raised : Bool

/-- The round loop of agent.py `stream_chat` (`for _round in
range(MAX_TOOL_ROUNDS)`), with the remaining iteration count as fuel:
each round submits the history, forwards text deltas, appends the
assistant turn, and either finishes with `done` (stop reason not
`tool_use`, or no tool_use blocks), or dispatches the tool blocks
sequentially, appends one combined tool-results turn, and continues.
Exhausted fuel yields the soft terminal `done`. -/
def stream_chat_loop (oracle : Oracle) (session_id : String) :
    Nat → DB → List Message → LoopResult
  | 0, d, history => ⟨[Event.done], d, history, 0, false⟩
  | fuel + 1, d, history =>
      match oracle history with
      | none => ⟨[], d, history, 1, true⟩
      | some turn =>
          let textEvents := turn.deltas.map Event.text
          let history1 := history ++
            [⟨"assistant", MContent.blocks (_serialize_content turn.content)⟩]
          let tool_use_blocks := turn.content.filter Block.isToolUse
          if turn.stop_reason != "tool_use" || tool_use_blocks.isEmpty then
            ⟨textEvents ++ [Event.done], d, history1, 1, false⟩
          else
            match run_tool_blocks session_id d tool_use_blocks with
            | (d1, none) => ⟨textEvents, d1, history1, 1, true⟩
            | (d1, some tool_results) =>
                let history2 := history1 ++ [⟨"user", MContent.toolResults tool_results⟩]
                let r := stream_chat_loop oracle session_id fuel d1 history2
                ⟨textEvents ++ r.events, r.db, r.history, r.rounds + 1, r.raised⟩

/-- agent.py `stream_chat`: append the inbound user message as a turn, then
run up to `MAX_TOOL_ROUNDS` rounds. -/
def stream_chat (oracle : Oracle) (session_id : String) (user_message : String)
    (d : DB) (history : List Message) : LoopResult :=
  stream_chat_loop oracle session_id MAX_TOOL_ROUNDS d
    (history ++ [⟨"user", MContent.str user_message⟩])

/-- One observable step of `SessionManager.chat`: either persisting the
history to the store (`db.save_messages`) or yielding an event to the
consumer downstream. -/
inductive ChatStep where
  | persist (history : List Message)
  | emit (e : Event)

/-- The per-event body of `SessionManager.chat`: a `done` event first
persists the (by then final) updated history, then is yielded; every other
event is yielded directly. -/
def chatSteps (finalHistory : List Message) : List Event → List ChatStep
  | [] => []
  | e :: rest =>
      (if e = Event.done then [ChatStep.persist finalHistory, ChatStep.emit e]
       else [ChatStep.emit e]) ++ chatSteps finalHistory rest

/-- Result of one `SessionManager.chat` call: its step trace (persistence
interleaved with yields), the store afterwards, the cache entry
afterwards, and whether `stream_chat` raised. -/
structure ChatResult where
  steps : List ChatStep
  db : DB
  history : List Message
  raised : Bool

namespace SessionManager

/-- session_manager.py `SessionManager.chat`: on cache miss load the
history from the store, run `stream_chat` on the shared mutable list, and
attempt to persist the updated history to the store strictly before
yielding the `done` event (the SSE generator cancels this task right
after receiving `done`, so anything after that yield would never run).
The save call sits in a `try/except Exception` that only logs a failure
and still yields `done`; `saveOk` is the outcome of that awaited
`db.save_messages` call — `true`: the write reached the store, `false`:
the call raised and the `except` branch swallowed it, leaving the durable
record unchanged. The step trace (the attempt and the yields) does not
depend on the outcome. -/
def chat (oracle : Oracle) (cache : Option (List Message)) (d : DB)
    (session_id : String) (user_message : String) (saveOk : Bool) : ChatResult :=
  let history0 := match cache with
    | some h => h
    | none => db.load_messages d session_id
  let lr := stream_chat oracle session_id user_message d history0
  let d2 := if lr.events.contains Event.done && saveOk
    then db.save_messages lr.db session_id lr.history
    else lr.db
  ⟨chatSteps lr.history lr.events, d2, lr.history, lr.raised⟩

end SessionManager

/-- Items on the `asyncio.Queue` bridging `_run_chat` (producer) and the
SSE generator (consumer): a chat event, or the `None` end-of-stream
sentinel put in the producer's `finally` block. -/
inductive QItem where
  | ev (e : Event)
  | sentinel

/-- server.py `_run_chat`: iterate `SessionManager.chat` under the query
lock pushing every event onto the queue; if an exception escapes, drop the
session from the cache and push one `error` event; finally push the
sentinel. Returns the queue contents in FIFO order. -/
def run_chat_queue (cr : ChatResult) : List QItem :=
  (cr.steps.filterMap fun s =>
    match s with
    | ChatStep.emit e => some (QItem.ev e)
    | ChatStep.persist _ => none)
  ++ (if cr.raised
      then [QItem.ev (Event.error "An error occurred. Please try again.")]
      else [])
  ++ [QItem.sentinel]

/-- The drain loop of server.py `_stream_with_keepalives`: a bounded wait
(`asyncio.wait` with the 2-second keepalive interval) on the queue. `gaps`
is the timing oracle: its head is how many whole keepalive intervals
elapse before the next queue item becomes available; each expiry emits a
synthetic `thinking` keepalive without consuming anything. An available
item is forwarded immediately; the loop breaks on the sentinel and right
after forwarding a terminal (`done`/`error`) event. -/
def consume : List Nat → List QItem → List Event
  | _, [] => []
  | (g+1) :: gs, item :: rest => Event.thinking :: consume (g :: gs) (item :: rest)
  | gaps, item :: rest =>
      match item with
      | QItem.sentinel => []
      | QItem.ev e => if e.isTerminal then [e] else e :: consume gaps.tail rest
termination_by gaps items => gaps.sum + items.length
decreasing_by
  all_goals simp_wf
  all_goals try omega
  all_goals cases gaps <;> simp [List.sum_cons] <;> omega

/-- server.py `_stream_with_keepalives`: emit one acknowledgement
keepalive before the producer task even starts, then drain the queue with
keepalives. -/
def _stream_with_keepalives (gaps : List Nat) (items : List QItem) : List Event :=
  Event.thinking :: consume gaps items

/-- prompts/__init__.py `INITIAL_PROMPT`: the silent opening prompt
substituted for an empty inbound message. -/
def INITIAL_PROMPT : String :=
  "Session started. Call get_state immediately to check current progress, then greet the user appropriately based on their stage and what has been saved."

/-- A FastAPI `HTTPException` as raised by the routes. -/
structure HTTPError where
  status : Nat
  detail : String
deriving DecidableEq

/-- server.py `POST /sessions/{session_id}/chat`: reject an id unknown to
the store with HTTP 404 before any stream is opened; otherwise open the
SSE stream (empty message replaced by `INITIAL_PROMPT`). `gaps` and
`cache` parametrise queue timing and the session cache state. -/
def chat_endpoint (oracle : Oracle) (gaps : List Nat)
    (cache : Option (List Message)) (saveOk : Bool) (d : DB) (session_id : String)
    (message : String) : Except HTTPError (List Event) :=
  match db.get_session d session_id with
  | none => Except.error ⟨404, "Session not found"⟩
  | some _ =>
      let user_message := if pyStrip message = "" then INITIAL_PROMPT else pyStrip message
      Except.ok (_stream_with_keepalives gaps
        (run_chat_queue (SessionManager.chat oracle cache d session_id user_message saveOk)))

/-- Steps of per-session exchange serialisation (server.py `_run_chat`
wrapping the whole round-sequence in `async with
session_manager.query_lock(session_id)`): a caller requesting the
session's query lock, performing one step of its round-sequence while
holding it, or releasing it. `asyncio.Lock` wakes waiters in FIFO order.
`remove` is SessionManager.remove_session popping the session's entry
from `_query_locks` (called from the `_run_chat` exception handler and
from the idle-eviction sweep): the old lock object lives on for whoever
already references it, while the next `setdefault` creates a fresh one. -/
inductive LockStep where
  | request (t : Nat)
  | act (t : Nat) (a : ChatStep)
  | release (t : Nat)
  | remove

/-- Whether a lock step is `request t`. -/
def LockStep.isReqOf (t : Nat) : LockStep → Bool
  | LockStep.request u => t == u
  | _ => false

def LockStep.isRelease : LockStep → Bool
  | LockStep.release _ => true
  | _ => false

def reqTask : LockStep → Option Nat
  | LockStep.request t => some t
  | _ => none

/-- The per-session lock's service queue: head = current holder, tail =
waiters in arrival order. `request` appends the caller (immediate
acquisition when the queue is empty), `act` requires holding the lock,
`release` hands off to the first waiter. `none` = the step is impossible
(acting or releasing without holding). -/
def lockRun : List Nat → List LockStep → Option (List Nat)
  | q, [] => some q
  | q, LockStep.request t :: rest => lockRun (q ++ [t]) rest
  | q, LockStep.act t _ :: rest => if q.head? = some t then lockRun q rest else none
  | q, LockStep.release t :: rest => if q.head? = some t then lockRun q.tail rest else none
  | _, LockStep.remove :: _ => none

/-- Release within a list of stale lock queues: pop `t` from the front of
the first queue it heads; `none` if it heads none of them. -/
def releaseIn : List (List Nat) → Nat → Option (List (List Nat))
  | [], _ => none
  | q :: rest, t =>
      if q.head? == some t then some (q.tail :: rest)
      else match releaseIn rest t with
        | some rest2 => some (q :: rest2)
        | none => none

/-- One step of the full per-session lock structure, including
`remove_session`: the state is the list of stale lock objects (popped
from `_query_locks` but still referenced by their holders/waiters) plus
the current dict entry. `request` joins the current entry (`setdefault`),
`act` requires heading the current entry or a stale one, `release` pops
the caller from the front of whichever queue it heads, and `remove` pops
the dict entry so the next `request` lands on a fresh empty lock. -/
def lockStepFull : List (List Nat) × List Nat → LockStep →
    Option (List (List Nat) × List Nat)
  | (stale, cur), LockStep.request t => some (stale, cur ++ [t])
  | (stale, cur), LockStep.act t _ =>
      if cur.head? == some t || stale.any (fun q => q.head? == some t)
      then some (stale, cur) else none
  | (stale, cur), LockStep.release t =>
      if cur.head? == some t then some (stale, cur.tail)
      else match releaseIn stale t with
        | some stale2 => some (stale2, cur)
        | none => none
  | (stale, cur), LockStep.remove => some (stale ++ [cur], [])

/-- Run a trace of the full lock structure (stale lock objects plus the
current `_query_locks` entry). -/
def lockRunFull : List (List Nat) × List Nat → List LockStep →
    Option (List (List Nat) × List Nat)
  | s, [] => some s
  | s, step :: rest =>
      match lockStepFull s step with
      | none => none
      | some s2 => lockRunFull s2 rest

/-- The interleaving scenario: caller 1 holds the lock and caller 2
waits; caller 1's exchange errors out, so `_run_chat` releases the lock
and its exception handler calls `remove_session`, popping `_query_locks`;
caller 3 then gets a fresh lock from `setdefault` while caller 2 proceeds
on the old object — and the round-sequence steps of callers 2 and 3
interleave (positions 6, 7, 8). -/
def removeTrace : List LockStep :=
  [LockStep.request 1, LockStep.request 2,
   LockStep.act 1 (ChatStep.emit Event.done), LockStep.release 1,
   LockStep.remove, LockStep.request 3,
   LockStep.act 2 (ChatStep.emit Event.done),
   LockStep.act 3 (ChatStep.emit Event.done),
   LockStep.act 2 (ChatStep.emit Event.done),
   LockStep.release 2, LockStep.release 3]

/-- The callers that have requested the lock so far, in arrival order. -/
def reqs (tr : List LockStep) : List Nat := tr.filterMap reqTask

/-- The number of releases so far (callers already served). -/
def rels (tr : List LockStep) : Nat := tr.countP LockStep.isRelease

/-- A gateway oracle whose first turn requests the given tool invocations
and whose following turn (recognisable by the trailing tool-results
message) ends the exchange with plain text: traces one round-sequence
across the given tool calls. -/
def twoRoundOracle (blocks : List Block) : Oracle := fun history =>
  match history.getLast? with
  | some ⟨_, MContent.toolResults _⟩ => some ⟨["ok"], [Block.text "ok"], "end_turn"⟩
  | _ => some ⟨[], blocks, "tool_use"⟩

/-- A first-round assistant turn of two invalid tool calls: a write with an
empty patch and an advance to a stage outside the canonical set. -/
def invalidToolBlocks : List Block :=
  [Block.tool_use "t1" "update_state" [("updates", Json.obj [])],
   Block.tool_use "t2" "advance_stage" [("stage", Json.str "bogus")]]

/-- A first-round assistant turn invoking a tool name outside the dispatch
table. -/
def unknownToolBlocks : List Block :=
  [Block.tool_use "t1" "bogus_tool" []]

/-! ## Association-list and deep-merge lemmas -/

theorem dict_get_set_self {α : Type} (l : List (String × α)) (k : String) (v : α) :
    dict_get (dict_set l k v) k = some v := by
  induction l with
  | nil => simp [dict_set, dict_get]
  | cons p rest ih =>
      obtain ⟨k', w⟩ := p
      by_cases h : k' = k
      · subst h; simp [dict_set, dict_get]
      · simp [dict_set, dict_get, h, ih]

theorem dict_get_set_ne {α : Type} (l : List (String × α)) (k k' : String) (v : α)
    (h : k ≠ k') : dict_get (dict_set l k v) k' = dict_get l k' := by
  induction l with
  | nil => simp [dict_set, dict_get, h]
  | cons p rest ih =>
      obtain ⟨k0, w⟩ := p
      by_cases h0 : k0 = k
      · subst h0; simp [dict_set, dict_get, h]
      · simp [dict_set, dict_get, h0, ih]

theorem deep_merge_get_not_mem (ups : List (String × Json)) :
    ∀ (base : List (String × Json)) (k : String),
      (∀ p ∈ ups, p.1 ≠ k) →
      dict_get (_deep_merge base ups) k = dict_get base k := by
  induction ups with
  | nil => intro base k _; rw [_deep_merge]
  | cons p rest ih =>
      intro base k h
      obtain ⟨k', v'⟩ := p
      have hk : k' ≠ k := h (k', v') (by simp)
      rw [_deep_merge, ih _ _ (fun q hq => h q (by simp [hq])),
        dict_get_set_ne _ _ _ _ hk]

theorem mergeValue_eq_of_not_obj (o : Option Json) (v : Json)
    (h : ∀ kvs, v ≠ Json.obj kvs) : mergeValue o v = v := by
  cases o with
  | none => cases v <;> first
      | exact absurd rfl (h _)
      | simp [mergeValue]
  | some w => cases w <;> cases v <;> first
      | exact absurd rfl (h _)
      | simp [mergeValue]

/-! ## C2: non-mapping patch values replace wholesale -/


/-- C2: for every merge write whose patch value for a key is not a nested
mapping (in particular any sequence value), the merged state's value for
that key is exactly the patch's value — replaced wholesale, never
concatenated with the existing value. -/
theorem deep_merge_replaces_non_mapping_wholesale :
    ∀ (ups : List (String × Json)) (k : String) (v : Json),
      (ups.map Prod.fst).Nodup →
      dict_get ups k = some v →
      (∀ kvs, v ≠ Json.obj kvs) →
      ∀ base, dict_get (_deep_merge base ups) k = some v := by
  intro ups k v
  induction ups with
  | nil => intro _ hget _ _; simp [dict_get] at hget
  | cons p rest ih =>
      intro hnodup hget hnotobj base
      obtain ⟨k', v'⟩ := p
      simp only [List.map_cons, List.nodup_cons] at hnodup
      obtain ⟨hnotin, hrest⟩ := hnodup
      rw [_deep_merge]
      by_cases h : k' = k
      · rw [dict_get, if_pos h] at hget
        obtain rfl : v' = v := Option.some.inj hget
        rw [deep_merge_get_not_mem rest _ k
            (fun q hq hc => hnotin ((hc.trans h.symm) ▸ List.mem_map_of_mem Prod.fst hq)),
          ← h, dict_get_set_self, mergeValue_eq_of_not_obj _ _ hnotobj]
      · rw [dict_get, if_neg h] at hget
        exact ih hrest hget hnotobj _

/-- Witness for C2: replacing an existing sequence-valued key `floors` with
a longer sequence yields exactly the new sequence. -/
theorem deep_merge_replaces_non_mapping_wholesale_witness :
    dict_get (_deep_merge
        [("floors", Json.arr [Json.str "A", Json.str "B"])]
        [("floors", Json.arr [Json.str "A", Json.str "B", Json.str "C"])]) "floors"
      = some (Json.arr [Json.str "A", Json.str "B", Json.str "C"]) :=
  deep_merge_replaces_non_mapping_wholesale _ "floors" _
    (by simp) (by simp [dict_get]) (fun kvs h => Json.noConfusion h) _

/-! ## C1: writes fold deepMerge; version counts successful writes -/

/-- C1: for every session and every sequence of successful write-tool
calls, the final persisted state equals the left fold of `_deep_merge`
over the patches in call order, and the final `state_version` is the
initial version plus the number of successful writes. -/
theorem writeSeq_state_foldl_version_count :
    ∀ (patches : List (List (String × Json))) (session_id : String) (d' d : DB)
      (s0 : Session),
      db.get_session d session_id = some s0 →
      writeSeq d session_id patches = some d' →
      ∃ s1, db.get_session d' session_id = some s1 ∧
        s1.state = patches.foldl _deep_merge s0.state ∧
        s1.state_version = s0.state_version + patches.length := by
  intro patches session_id d'
  induction patches with
  | nil =>
      intro d s0 h0 hseq
      rw [writeSeq] at hseq
      obtain rfl : d = d' := Option.some.inj hseq
      exact ⟨s0, h0, rfl, by simp⟩
  | cons p ps ih =>
      intro d s0 h0 hseq
      rw [writeSeq] at hseq
      by_cases hne : p = []
      · subst hne
        simp [update_state, pyFalsy, isSaved, mkToolError, dict_get] at hseq
      · have hfalsy : pyFalsy (Json.obj p) = false := by simp [pyFalsy, hne]
        have hget0 : dict_get d session_id = some s0 := h0
        simp only [update_state, hfalsy, Bool.false_eq_true, if_false, h0,
          db.update_session_state, hget0, isSaved, dict_get, if_pos,
          reduceIte] at hseq
        have hnext : db.get_session (dict_set d session_id
              (Session.mk s0.stage (_deep_merge s0.state p)
                (s0.state_version + 1) s0.messages)) session_id
            = some (Session.mk s0.stage (_deep_merge s0.state p)
                (s0.state_version + 1) s0.messages) := by
          simp [db.get_session, dict_get_set_self]
        obtain ⟨s1, hs1, hstate, hver⟩ := ih _ _ hnext hseq
        refine ⟨s1, hs1, ?_, ?_⟩
        · simpa [List.foldl_cons] using hstate
        · simp only [List.length_cons] at hver ⊢
          omega

/-- Witness for C1: one successful write of `{a: 1}` onto a fresh session
yields state `{a: 1}` and version 2. -/
theorem writeSeq_state_foldl_version_count_witness :
    ∃ s1, db.get_session [("S", ⟨"intro", [("a", Json.num 1)], 2, []⟩)] "S"
        = some s1 ∧
      s1.state = [[("a", Json.num 1)]].foldl _deep_merge
        (Session.mk "intro" [] 1 []).state ∧
      s1.state_version = (Session.mk "intro" [] 1 []).state_version
        + [[("a", Json.num 1)]].length :=
  writeSeq_state_foldl_version_count [[("a", Json.num 1)]] "S"
    [("S", ⟨"intro", [("a", Json.num 1)], 2, []⟩)]
    [("S", ⟨"intro", [], 1, []⟩)] ⟨"intro", [], 1, []⟩
    (by simp [db.get_session, dict_get])
    (by simp [writeSeq, update_state, pyFalsy, db.get_session, dict_get,
              db.update_session_state, dict_set, isSaved, _deep_merge,
              mergeValue])

/-! ## Loop-engine event shape and round bound -/

theorem stream_chat_loop_shape (oracle : Oracle) (session_id : String) :
    ∀ (fuel : Nat) (d : DB) (history : List Message),
      ∃ ts, (∀ e ∈ ts, e.isText = true) ∧
        (stream_chat_loop oracle session_id fuel d history).events =
          ts ++ (if (stream_chat_loop oracle session_id fuel d history).raised
                 then [] else [Event.done]) ∧
        (stream_chat_loop oracle session_id fuel d history).rounds ≤ fuel := by
  intro fuel
  induction fuel with
  | zero =>
      intro d history
      exact ⟨[], by simp, by simp [stream_chat_loop], by simp [stream_chat_loop]⟩
  | succ fuel ih =>
      intro d history
      rcases horacle : oracle history with _ | turn
      · exact ⟨[], by simp, by simp [stream_chat_loop, horacle],
          by simp [stream_chat_loop, horacle]⟩
      · by_cases hstop :
          (turn.stop_reason != "tool_use" || (turn.content.filter Block.isToolUse).isEmpty) = true
        · refine ⟨turn.deltas.map Event.text, ?_, ?_, ?_⟩
          · intro e he
            obtain ⟨s, _, rfl⟩ := List.mem_map.mp he
            rfl
          · simp [stream_chat_loop, horacle, hstop]
          · simp [stream_chat_loop, horacle, hstop]
        · rcases hrun : run_tool_blocks session_id d (turn.content.filter Block.isToolUse)
            with ⟨d1, trsOpt⟩
          rcases trsOpt with _ | trs
          · refine ⟨turn.deltas.map Event.text, ?_, ?_, ?_⟩
            · intro e he
              obtain ⟨s, _, rfl⟩ := List.mem_map.mp he
              rfl
            · simp [stream_chat_loop, horacle, hstop, hrun]
            · simp [stream_chat_loop, horacle, hstop, hrun]
          · obtain ⟨ts, hts, hev, hrounds⟩ := ih d1
              (history ++ [⟨"assistant", MContent.blocks (_serialize_content turn.content)⟩,
                           ⟨"user", MContent.toolResults trs⟩])
            refine ⟨turn.deltas.map Event.text ++ ts, ?_, ?_, ?_⟩
            · intro e he
              rcases List.mem_append.mp he with h | h
              · obtain ⟨s, _, rfl⟩ := List.mem_map.mp h
                rfl
              · exact hts e h
            · simp [stream_chat_loop, horacle, hstop, hrun]
              rw [hev]
            · simp [stream_chat_loop, horacle, hstop, hrun]
              omega

/-! ## C6: round bound, soft-stop done, termination -/

/-- C6: every invocation of the tool-use loop executes at most
`MAX_TOOL_ROUNDS = 10` gateway rounds; when no exception escapes — in
particular when the round limit is exhausted without a terminal
condition — the loop ends by emitting a terminal `done` event (a soft
stop); and the loop never emits an `error` event of its own. Termination
itself is witnessed by `stream_chat` being a total function. -/
theorem stream_chat_round_bound_soft_done (oracle : Oracle)
    (session_id user_message : String) (d : DB) (history : List Message) :
    (stream_chat oracle session_id user_message d history).rounds ≤ MAX_TOOL_ROUNDS ∧
    ((stream_chat oracle session_id user_message d history).raised = false →
      (stream_chat oracle session_id user_message d history).events.getLast?
        = some Event.done) ∧
    (∀ m, Event.error m ∉ (stream_chat oracle session_id user_message d history).events) := by
  obtain ⟨ts, hts, hev, hrounds⟩ := stream_chat_loop_shape oracle session_id
    MAX_TOOL_ROUNDS d (history ++ [⟨"user", MContent.str user_message⟩])
  rw [stream_chat]
  refine ⟨hrounds, ?_, ?_⟩
  · intro hraised
    rw [hev, hraised]
    simp
  · intro m hm
    rw [hev] at hm
    rcases List.mem_append.mp hm with h | h
    · exact absurd (hts _ h) (by simp [Event.isText])
    · rcases hr : (stream_chat_loop oracle session_id MAX_TOOL_ROUNDS d
        (history ++ [⟨"user", MContent.str user_message⟩])).raised with _ | _ <;>
        rw [hr] at h <;> simp at h

/-- Witness for C6 on a one-round exchange that ends with plain text. -/
theorem stream_chat_round_bound_soft_done_witness :
    (stream_chat (fun _ => some ⟨["hello"], [Block.text "hello"], "end_turn"⟩)
        "S" "hi" [] []).rounds ≤ MAX_TOOL_ROUNDS ∧
    (stream_chat (fun _ => some ⟨["hello"], [Block.text "hello"], "end_turn"⟩)
        "S" "hi" [] []).events.getLast? = some Event.done := by
  obtain ⟨h1, h2, _⟩ := stream_chat_round_bound_soft_done
    (fun _ => some ⟨["hello"], [Block.text "hello"], "end_turn"⟩) "S" "hi" [] []
  exact ⟨h1, h2 rfl⟩

/-! ## C4: invalid tool inputs — error flag, no mutation, loop continues -/

/-- C4: a write-tool call with an empty patch and an advance-tool call with
a stage outside the five canonical names each return a tool result
carrying an error flag, leave the durable store completely unchanged, and
a round-sequence containing exactly these two failing calls continues to
the next round and ends with a terminal `done` (no abort), still leaving
the store unchanged. -/
theorem invalid_inputs_error_flag_unchanged_loop_continues
    (d : DB) (session_id stage : String) (hstage : pyStrip stage ∉ VALID_STAGES) :
    update_state d session_id (Json.obj []) = some (d, mkToolError "No updates provided") ∧
    advance_stage d session_id stage
      = some (d, mkToolError ("Invalid stage: \x27" ++ pyStrip stage ++
          "\x27. Must be one of: " ++ String.intercalate ", " VALID_STAGES)) ∧
    (stream_chat (twoRoundOracle invalidToolBlocks) session_id "go" d []).raised = false ∧
    (stream_chat (twoRoundOracle invalidToolBlocks) session_id "go" d []).events.getLast?
      = some Event.done ∧
    (stream_chat (twoRoundOracle invalidToolBlocks) session_id "go" d []).db = d := by
  refine ⟨?_, ?_, rfl, rfl, rfl⟩
  · simp [update_state, pyFalsy, mkToolError]
  · simp [advance_stage, hstage, mkToolError]

/-- Witness for C4 at the empty store, session "S", stage "bogus". -/
theorem invalid_inputs_error_flag_unchanged_loop_continues_witness :
    update_state [] "S" (Json.obj []) = some ([], mkToolError "No updates provided") ∧
    advance_stage [] "S" "bogus"
      = some ([], mkToolError ("Invalid stage: \x27" ++ pyStrip "bogus" ++
          "\x27. Must be one of: " ++ String.intercalate ", " VALID_STAGES)) ∧
    (stream_chat (twoRoundOracle invalidToolBlocks) "S" "go" [] []).raised = false ∧
    (stream_chat (twoRoundOracle invalidToolBlocks) "S" "go" [] []).events.getLast?
      = some Event.done ∧
    (stream_chat (twoRoundOracle invalidToolBlocks) "S" "go" [] []).db = [] :=
  invalid_inputs_error_flag_unchanged_loop_continues [] "S" "bogus" (by decide)

/-! ## C10: unknown tool names — error text, no raise, loop continues -/

/-- C10: dispatching a tool invocation whose name is none of get_state,
update_state, advance_stage returns an error-text result instead of
raising, leaves the durable store unchanged, and a round-sequence
containing such a call continues to the next round and ends with `done`. -/
theorem unknown_tool_error_text_loop_continues
    (d : DB) (session_id tool_name : String) (tool_input : List (String × Json))
    (h1 : tool_name ≠ "get_state") (h2 : tool_name ≠ "update_state")
    (h3 : tool_name ≠ "advance_stage") :
    execute_tool d session_id tool_name tool_input
      = some (d, Json.obj [("error", Json.str ("Unknown tool: " ++ tool_name))]) ∧
    (stream_chat (twoRoundOracle unknownToolBlocks) session_id "go" d []).raised = false ∧
    (stream_chat (twoRoundOracle unknownToolBlocks) session_id "go" d []).events.getLast?
      = some Event.done ∧
    (stream_chat (twoRoundOracle unknownToolBlocks) session_id "go" d []).db = d := by
  refine ⟨?_, rfl, rfl, rfl⟩
  simp [execute_tool, h1, h2, h3]

/-- Witness for C10 at the empty store and the tool name "bogus_tool". -/
theorem unknown_tool_error_text_loop_continues_witness :
    execute_tool [] "S" "bogus_tool" []
      = some ([], Json.obj [("error", Json.str ("Unknown tool: " ++ "bogus_tool"))]) ∧
    (stream_chat (twoRoundOracle unknownToolBlocks) "S" "go" [] []).raised = false ∧
    (stream_chat (twoRoundOracle unknownToolBlocks) "S" "go" [] []).events.getLast?
      = some Event.done ∧
    (stream_chat (twoRoundOracle unknownToolBlocks) "S" "go" [] []).db = [] :=
  unknown_tool_error_text_loop_continues [] "S" "bogus_tool" []
    (by decide) (by decide) (by decide)

/-! ## C3: history persisted strictly before the terminal event is yielded -/

theorem chatSteps_persist_before_done (fh : List Message) :
    ∀ (events : List Event) (i : Nat),
      (chatSteps fh events).get? i = some (ChatStep.emit Event.done) →
      ∃ j, i = j + 1 ∧ (chatSteps fh events).get? j = some (ChatStep.persist fh) := by
  intro events
  induction events with
  | nil => intro i h; simp [chatSteps] at h
  | cons e rest ih =>
      intro i h
      by_cases hd : e = Event.done
      · subst hd
        rw [chatSteps, if_pos rfl] at h
        match i with
        | 0 => simp at h
        | 1 => exact ⟨0, rfl, rfl⟩
        | (n + 2) =>
            obtain ⟨j, hj, hget⟩ := ih n h
            exact ⟨j + 2, by omega, by
              rw [chatSteps, if_pos rfl]
              simpa using hget⟩
      · rw [chatSteps, if_neg hd] at h
        match i with
        | 0 =>
            simp at h
            exact absurd h hd
        | (n + 1) =>
            obtain ⟨j, hj, hget⟩ := ih n h
            exact ⟨j + 1, by omega, by
              rw [chatSteps, if_neg hd]
              simpa using hget⟩

/-! ### Store-presence preservation and the fallible save -/

theorem isSome_dict_get_set {α : Type} (l : List (String × α)) (k k2 : String)
    (v : α) (h : (dict_get l k2).isSome = true) :
    (dict_get (dict_set l k v) k2).isSome = true := by
  by_cases hk : k = k2
  · subst hk
    rw [dict_get_set_self]
    rfl
  · rw [dict_get_set_ne _ _ _ _ hk]
    exact h

theorem update_session_state_presence (d : DB) (sid : String)
    (ns : List (String × Json)) (d2 : DB) (s2 : Session)
    (h : db.update_session_state d sid ns = some (d2, s2)) (k : String)
    (hp : (dict_get d k).isSome = true) : (dict_get d2 k).isSome = true := by
  rcases hg : dict_get d sid with _ | s
  · simp only [db.update_session_state, hg] at h
    exact Option.noConfusion h
  · simp only [db.update_session_state, hg, Option.some.injEq, Prod.mk.injEq] at h
    rw [← h.1]
    exact isSome_dict_get_set _ _ _ _ hp

theorem db_advance_stage_presence (d : DB) (sid stage : String) (d2 : DB)
    (s2 : Session) (h : db.advance_stage d sid stage = some (d2, s2)) (k : String)
    (hp : (dict_get d k).isSome = true) : (dict_get d2 k).isSome = true := by
  rcases hg : dict_get d sid with _ | s
  · simp only [db.advance_stage, hg] at h
    exact Option.noConfusion h
  · simp only [db.advance_stage, hg, Option.some.injEq, Prod.mk.injEq] at h
    rw [← h.1]
    exact isSome_dict_get_set _ _ _ _ hp

theorem update_state_presence (d : DB) (sid : String) (u : Json) (d2 : DB)
    (r : Json) (h : update_state d sid u = some (d2, r)) (k : String)
    (hp : (dict_get d k).isSome = true) : (dict_get d2 k).isSome = true := by
  by_cases hf : pyFalsy u = true
  · simp only [update_state, if_pos hf, Option.some.injEq, Prod.mk.injEq] at h
    rw [← h.1]
    exact hp
  · rcases hg : db.get_session d sid with _ | s
    · simp only [update_state, if_neg hf, hg, Option.some.injEq, Prod.mk.injEq] at h
      rw [← h.1]
      exact hp
    · have hg0 : dict_get d sid = some s := hg
      cases u with
      | obj ups =>
          rcases hu : db.update_session_state d sid (_deep_merge s.state ups)
            with _ | ⟨d3, s3⟩
          · simp only [update_state, if_neg hf, hg, hu] at h
            exact Option.noConfusion h
          · simp only [update_state, if_neg hf, hg, hu, Option.some.injEq,
              Prod.mk.injEq] at h
            rw [← h.1]
            exact update_session_state_presence _ _ _ _ _ hu k hp
      | str sv =>
          simp only [update_state, if_neg hf, hg] at h
          exact Option.noConfusion h
      | num nv =>
          simp only [update_state, if_neg hf, hg] at h
          exact Option.noConfusion h
      | bool bv =>
          simp only [update_state, if_neg hf, hg] at h
          exact Option.noConfusion h
      | null =>
          simp only [update_state, if_neg hf, hg] at h
          exact Option.noConfusion h
      | arr av =>
          simp only [update_state, if_neg hf, hg] at h
          exact Option.noConfusion h

theorem advance_stage_tool_presence (d : DB) (sid st : String) (d2 : DB)
    (r : Json) (h : advance_stage d sid st = some (d2, r)) (k : String)
    (hp : (dict_get d k).isSome = true) : (dict_get d2 k).isSome = true := by
  by_cases hv : pyStrip st ∈ VALID_STAGES
  · rcases ha : db.advance_stage d sid (pyStrip st) with _ | ⟨d3, s3⟩
    · simp only [advance_stage, if_pos hv, ha] at h
      exact Option.noConfusion h
    · simp only [advance_stage, if_pos hv, ha, Option.some.injEq,
        Prod.mk.injEq] at h
      rw [← h.1]
      exact db_advance_stage_presence _ _ _ _ _ ha k hp
  · simp only [advance_stage, if_neg hv, Option.some.injEq, Prod.mk.injEq] at h
    rw [← h.1]
    exact hp

theorem execute_tool_presence (d : DB) (sid name : String)
    (input : List (String × Json)) (d2 : DB) (r : Json)
    (h : execute_tool d sid name input = some (d2, r)) (k : String)
    (hp : (dict_get d k).isSome = true) : (dict_get d2 k).isSome = true := by
  by_cases h1 : name = "get_state"
  · simp only [execute_tool, if_pos h1, Option.some.injEq, Prod.mk.injEq] at h
    rw [← h.1]
    exact hp
  · by_cases h2 : name = "update_state"
    · simp only [execute_tool, if_neg h1, if_pos h2] at h
      exact update_state_presence _ _ _ _ _ h k hp
    · by_cases h3 : name = "advance_stage"
      · simp only [execute_tool, if_neg h1, if_neg h2, if_pos h3] at h
        cases hst : (dict_get input "stage").getD (Json.str "") with
        | str sv =>
            simp only [hst] at h
            exact advance_stage_tool_presence _ _ _ _ _ h k hp
        | num nv =>
            simp only [hst] at h
            by_cases hfv : pyFalsy (Json.num nv) = true
            · rw [if_pos hfv] at h
              exact advance_stage_tool_presence _ _ _ _ _ h k hp
            · rw [if_neg hfv] at h
              exact Option.noConfusion h
        | bool bv =>
            simp only [hst] at h
            by_cases hfv : pyFalsy (Json.bool bv) = true
            · rw [if_pos hfv] at h
              exact advance_stage_tool_presence _ _ _ _ _ h k hp
            · rw [if_neg hfv] at h
              exact Option.noConfusion h
        | null =>
            simp only [hst] at h
            by_cases hfv : pyFalsy Json.null = true
            · rw [if_pos hfv] at h
              exact advance_stage_tool_presence _ _ _ _ _ h k hp
            · rw [if_neg hfv] at h
              exact Option.noConfusion h
        | arr av =>
            simp only [hst] at h
            by_cases hfv : pyFalsy (Json.arr av) = true
            · rw [if_pos hfv] at h
              exact advance_stage_tool_presence _ _ _ _ _ h k hp
            · rw [if_neg hfv] at h
              exact Option.noConfusion h
        | obj ov =>
            simp only [hst] at h
            by_cases hfv : pyFalsy (Json.obj ov) = true
            · rw [if_pos hfv] at h
              exact advance_stage_tool_presence _ _ _ _ _ h k hp
            · rw [if_neg hfv] at h
              exact Option.noConfusion h
      · simp only [execute_tool, if_neg h1, if_neg h2, if_neg h3,
          Option.some.injEq, Prod.mk.injEq] at h
        rw [← h.1]
        exact hp

theorem run_tool_blocks_presence (sid : String) :
    ∀ (blocks : List Block) (d : DB) (k : String),
      (dict_get d k).isSome = true →
      (dict_get (run_tool_blocks sid d blocks).1 k).isSome = true := by
  intro blocks
  induction blocks with
  | nil =>
      intro d k hp
      simpa [run_tool_blocks] using hp
  | cons b rest ih =>
      intro d k hp
      cases b with
      | text t =>
          rw [run_tool_blocks]
          exact ih d k hp
      | tool_use bid name input =>
          rw [run_tool_blocks]
          rcases he : execute_tool d sid name input with _ | ⟨d1, r⟩
          · simpa using hp
          · have h1 := execute_tool_presence d sid name input d1 r he k hp
            have h2 := ih d1 k h1
            rcases hr : run_tool_blocks sid d1 rest with ⟨d3, o⟩
            rw [hr] at h2
            cases o <;> simp only [run_tool_blocks, hr] <;> exact h2

theorem stream_chat_loop_presence (oracle : Oracle) (sid : String) :
    ∀ (fuel : Nat) (d : DB) (history : List Message) (k : String),
      (dict_get d k).isSome = true →
      (dict_get (stream_chat_loop oracle sid fuel d history).db k).isSome = true := by
  intro fuel
  induction fuel with
  | zero =>
      intro d history k hp
      simpa [stream_chat_loop] using hp
  | succ fuel ih =>
      intro d history k hp
      rcases ho : oracle history with _ | turn
      · simpa [stream_chat_loop, ho] using hp
      · by_cases hstop :
          (turn.stop_reason != "tool_use" || (turn.content.filter Block.isToolUse).isEmpty) = true
        · simpa [stream_chat_loop, ho, hstop] using hp
        · rcases hr : run_tool_blocks sid d (turn.content.filter Block.isToolUse)
            with ⟨d1, o⟩
          have h1 : (dict_get d1 k).isSome = true := by
            have := run_tool_blocks_presence sid (turn.content.filter Block.isToolUse) d k hp
            rw [hr] at this
            exact this
          cases o with
          | none => simpa [stream_chat_loop, ho, hstop, hr] using h1
          | some trs =>
              simp only [stream_chat_loop, ho, hstop, hr]
              simp only [Bool.false_eq_true, if_false]
              exact ih d1 _ k h1

theorem stream_chat_presence (oracle : Oracle) (sid user_message : String)
    (d : DB) (history : List Message) (k : String)
    (hp : (dict_get d k).isSome = true) :
    (dict_get (stream_chat oracle sid user_message d history).db k).isSome = true := by
  rw [stream_chat]
  exact stream_chat_loop_presence oracle sid MAX_TOOL_ROUNDS d _ k hp

theorem chatSteps_emit_mem (fh : List Message) :
    ∀ (events : List Event) (e : Event),
      ChatStep.emit e ∈ chatSteps fh events → e ∈ events := by
  intro events
  induction events with
  | nil => intro e h; simp [chatSteps] at h
  | cons x rest ih =>
      intro e h
      by_cases hd : x = Event.done
      · subst hd
        rw [chatSteps, if_pos rfl] at h
        rcases List.mem_append.mp h with h1 | h2
        · simp at h1
          rw [h1]
          exact List.mem_cons_self _ _
        · exact List.mem_cons_of_mem _ (ih e h2)
      · rw [chatSteps, if_neg hd] at h
        rcases List.mem_append.mp h with h1 | h2
        · simp at h1
          rw [h1]
          exact List.mem_cons_self _ _
        · exact List.mem_cons_of_mem _ (ih e h2)

theorem contains_of_mem {α : Type} [BEq α] [LawfulBEq α] {a : α} {l : List α}
    (h : a ∈ l) : l.contains a = true :=
  List.elem_iff.mpr h

theorem load_after_save (d : DB) (sid : String) (msgs : List Message)
    (hp : (dict_get d sid).isSome = true) :
    db.load_messages (db.save_messages d sid msgs) sid = msgs := by
  rcases hg : dict_get d sid with _ | s
  · rw [hg] at hp
    simp at hp
  · simp [db.save_messages, db.load_messages, hg, dict_get_set_self]

/-- Counterexample to C3 as stated: when the awaited `db.save_messages`
raises (outcome `false`) the `except` branch swallows the failure, the
terminal `done` is still delivered, and the durable record does not hold
the updated history: here the store still carries the empty history while
the exchange produced a two-turn one. So the full updated history is not
always persisted before the terminal event is delivered. -/
theorem chat_done_delivered_unpersisted_counterexample :
    (SessionManager.chat (fun _ => some ⟨[], [Block.text "x"], "end_turn"⟩)
        (some []) [("S", ⟨"intro", [], 1, []⟩)] "S" "hi" false).steps.get? 1
      = some (ChatStep.emit Event.done) ∧
    db.load_messages (SessionManager.chat (fun _ => some ⟨[], [Block.text "x"], "end_turn"⟩)
        (some []) [("S", ⟨"intro", [], 1, []⟩)] "S" "hi" false).db "S" = [] ∧
    (SessionManager.chat (fun _ => some ⟨[], [Block.text "x"], "end_turn"⟩)
        (some []) [("S", ⟨"intro", [], 1, []⟩)] "S" "hi" false).history
      = [⟨"user", MContent.str "hi"⟩, ⟨"assistant", MContent.blocks [Block.text "x"]⟩] ∧
    ([] : List Message)
      ≠ [⟨"user", MContent.str "hi"⟩, ⟨"assistant", MContent.blocks [Block.text "x"]⟩] :=
  ⟨rfl, rfl, rfl, by simp⟩

/-- C3 (amended): in every exchange, the save of the full updated history
to durable storage is attempted — issued and completed, or its failure
caught — after the loop engine emits its terminal `done` event and
strictly before that event is delivered to the caller (the step
immediately preceding every `done` delivery is the persistence attempt of
the final history); and whenever the save call succeeds, the durable
record holds the full updated history before the `done` is delivered. -/
theorem chat_attempts_persist_before_done_and_persists_on_success
    (oracle : Oracle) (cache : Option (List Message)) (d : DB)
    (session_id user_message : String) (saveOk : Bool) (i : Nat)
    (h : (SessionManager.chat oracle cache d session_id user_message saveOk).steps.get? i
         = some (ChatStep.emit Event.done)) :
    (∃ j, i = j + 1 ∧
      (SessionManager.chat oracle cache d session_id user_message saveOk).steps.get? j
        = some (ChatStep.persist
            (SessionManager.chat oracle cache d session_id user_message saveOk).history)) ∧
    (saveOk = true → (db.get_session d session_id).isSome = true →
      db.load_messages
          (SessionManager.chat oracle cache d session_id user_message saveOk).db
          session_id
        = (SessionManager.chat oracle cache d session_id user_message saveOk).history) := by
  simp only [SessionManager.chat] at h ⊢
  constructor
  · exact chatSteps_persist_before_done _ _ _ h
  · intro hsave hpresent
    have hmem := chatSteps_emit_mem _ _ _ (List.get?_mem h)
    have hcontains := contains_of_mem hmem
    simp [hcontains, hmem, hsave]
    exact load_after_save _ _ _
      (stream_chat_presence oracle session_id user_message d _ session_id hpresent)

/-- Witness for the amended C3 on a one-round exchange with a succeeding
save: the step before the `done` delivery is the persistence attempt, and
the durable record afterwards holds the final history. -/
theorem chat_attempts_persist_before_done_and_persists_on_success_witness :
    (∃ j, 1 = j + 1 ∧
      (SessionManager.chat (fun _ => some ⟨[], [Block.text "x"], "end_turn"⟩)
          (some []) [("S", ⟨"intro", [], 1, []⟩)] "S" "hi" true).steps.get? j
        = some (ChatStep.persist
            (SessionManager.chat (fun _ => some ⟨[], [Block.text "x"], "end_turn"⟩)
                (some []) [("S", ⟨"intro", [], 1, []⟩)] "S" "hi" true).history)) ∧
    (true = true → (db.get_session [("S", ⟨"intro", [], 1, []⟩)] "S").isSome = true →
      db.load_messages
          (SessionManager.chat (fun _ => some ⟨[], [Block.text "x"], "end_turn"⟩)
              (some []) [("S", ⟨"intro", [], 1, []⟩)] "S" "hi" true).db "S"
        = (SessionManager.chat (fun _ => some ⟨[], [Block.text "x"], "end_turn"⟩)
              (some []) [("S", ⟨"intro", [], 1, []⟩)] "S" "hi" true).history) :=
  chat_attempts_persist_before_done_and_persists_on_success
    (fun _ => some ⟨[], [Block.text "x"], "end_turn"⟩)
    (some []) [("S", ⟨"intro", [], 1, []⟩)] "S" "hi" true 1 rfl

/-! ## Bridge lemmas: keepalive gaps, queue shape -/

theorem Event.isText_not_terminal (e : Event) (h : e.isText = true) :
    e.isTerminal = false := by
  cases e <;> simp_all [Event.isText, Event.isTerminal]

theorem consume_gap_unroll (g : Nat) (gs : List Nat) (items : List QItem)
    (hne : items ≠ []) :
    consume (g :: gs) items
      = List.replicate g Event.thinking ++ consume (0 :: gs) items := by
  induction g with
  | zero => simp
  | succ g ih =>
      rcases items with _ | ⟨item, rest⟩
      · exact absurd rfl hne
      · rw [consume, ih]
        simp [List.replicate_succ]

theorem stream_chat_shape (oracle : Oracle) (session_id user_message : String)
    (d : DB) (history : List Message) :
    ∃ ts, (∀ e ∈ ts, e.isText = true) ∧
      (stream_chat oracle session_id user_message d history).events
        = ts ++ (if (stream_chat oracle session_id user_message d history).raised
                 then [] else [Event.done]) := by
  obtain ⟨ts, h1, h2, _⟩ := stream_chat_loop_shape oracle session_id
    MAX_TOOL_ROUNDS d (history ++ [⟨"user", MContent.str user_message⟩])
  exact ⟨ts, h1, by simp only [stream_chat]; exact h2⟩

theorem chatSteps_emits (fh : List Message) :
    ∀ events : List Event,
      (chatSteps fh events).filterMap (fun s =>
        match s with
        | ChatStep.emit e => some (QItem.ev e)
        | ChatStep.persist _ => none) = events.map QItem.ev := by
  intro events
  induction events with
  | nil => simp [chatSteps]
  | cons e rest ih =>
      by_cases hd : e = Event.done
      · subst hd
        rw [chatSteps, if_pos rfl]
        simpa using ih
      · rw [chatSteps, if_neg hd]
        simpa using ih

theorem run_chat_queue_shape (oracle : Oracle) (cache : Option (List Message))
    (d : DB) (session_id user_message : String) (saveOk : Bool) :
    ∃ (ts : List Event) (t : Event), (∀ e ∈ ts, e.isText = true) ∧
      t.isTerminal = true ∧
      run_chat_queue (SessionManager.chat oracle cache d session_id user_message saveOk)
        = ts.map QItem.ev ++ QItem.ev t :: [QItem.sentinel] := by
  rcases cache with _ | h0
  all_goals
    first
    | (obtain ⟨ts, hts, hev⟩ := stream_chat_shape oracle session_id user_message d
          (db.load_messages d session_id)
       simp only [SessionManager.chat, run_chat_queue]
       rw [chatSteps_emits]
       rcases hraised : (stream_chat oracle session_id user_message d
           (db.load_messages d session_id)).raised with _ | _
       · rw [hraised] at hev
         exact ⟨ts, Event.done, hts, rfl, by rw [hev]; simp [hraised]⟩
       · rw [hraised] at hev
         exact ⟨ts, Event.error "An error occurred. Please try again.", hts, rfl,
           by rw [hev]; simp [hraised]⟩)
    | (obtain ⟨ts, hts, hev⟩ := stream_chat_shape oracle session_id user_message d h0
       simp only [SessionManager.chat, run_chat_queue]
       rw [chatSteps_emits]
       rcases hraised : (stream_chat oracle session_id user_message d h0).raised with _ | _
       · rw [hraised] at hev
         exact ⟨ts, Event.done, hts, rfl, by rw [hev]; simp [hraised]⟩
       · rw [hraised] at hev
         exact ⟨ts, Event.error "An error occurred. Please try again.", hts, rfl,
           by rw [hev]; simp [hraised]⟩)

theorem consume_forwards :
    ∀ (ts : List Event) (gaps : List Nat) (t : Event) (rest : List QItem),
      (∀ e ∈ ts, e.isText = true) → t.isTerminal = true →
      ∃ pre, consume gaps (ts.map QItem.ev ++ QItem.ev t :: rest) = pre ++ [t] ∧
        ∀ e ∈ pre, e.isTerminal = false := by
  intro ts
  induction ts with
  | nil =>
      intro gaps t rest _ hterm
      rcases gaps with _ | ⟨g, gs⟩
      · exact ⟨[], by simp [consume, hterm], by simp⟩
      · rw [List.map_nil, List.nil_append,
          consume_gap_unroll g gs _ (by simp)]
        refine ⟨List.replicate g Event.thinking, ?_, ?_⟩
        · simp [consume, hterm]
        · intro e he
          rw [List.eq_of_mem_replicate he]
          rfl
  | cons e ts ih =>
      intro gaps t rest hts hterm
      have hetext : e.isText = true := hts e (by simp)
      have heterm : e.isTerminal = false := Event.isText_not_terminal e hetext
      have hts' : ∀ x ∈ ts, x.isText = true := fun x hx => hts x (by simp [hx])
      rcases gaps with _ | ⟨g, gs⟩
      · obtain ⟨pre, hpre, hpreterm⟩ := ih [] t rest hts' hterm
        refine ⟨e :: pre, ?_, ?_⟩
        · simp only [List.map_cons, List.cons_append]
          simp only [consume, heterm, Bool.false_eq_true, if_false, List.tail_nil]
          rw [hpre]
        · intro x hx
          rcases List.mem_cons.mp hx with h | h
          · exact h ▸ heterm
          · exact hpreterm x h
      · obtain ⟨pre, hpre, hpreterm⟩ := ih gs t rest hts' hterm
        rw [List.map_cons, List.cons_append,
          consume_gap_unroll g gs _ (by simp)]
        refine ⟨List.replicate g Event.thinking ++ e :: pre, ?_, ?_⟩
        · simp only [consume, heterm, Bool.false_eq_true, if_false, List.tail_cons]
          rw [hpre]
          simp
        · intro x hx
          rcases List.mem_append.mp hx with h | h
          · rw [List.eq_of_mem_replicate h]; rfl
          · rcases List.mem_cons.mp h with h' | h'
            · exact h' ▸ heterm
            · exact hpreterm x h'

/-! ## C7: every stream ends in exactly one terminal event, nothing after -/

/-- C7: every event stream opened by send-message ends in exactly one
terminal event (`done` or `error`): the terminal is the last element of
the delivered stream and no other delivered event is terminal, for every
store, cache state, gateway behaviour and queue timing. -/
theorem sse_stream_exactly_one_terminal_last (oracle : Oracle) (gaps : List Nat)
    (cache : Option (List Message)) (d : DB) (session_id user_message : String)
    (saveOk : Bool) :
    ∃ t, t.isTerminal = true ∧
      (_stream_with_keepalives gaps (run_chat_queue
          (SessionManager.chat oracle cache d session_id user_message saveOk))).getLast?
        = some t ∧
      (_stream_with_keepalives gaps (run_chat_queue
          (SessionManager.chat oracle cache d session_id user_message saveOk))).countP
          Event.isTerminal = 1 := by
  obtain ⟨ts, t, hts, hterm, hq⟩ :=
    run_chat_queue_shape oracle cache d session_id user_message saveOk
  obtain ⟨pre, hpre, hpreterm⟩ :=
    consume_forwards ts gaps t [QItem.sentinel] hts hterm
  refine ⟨t, hterm, ?_, ?_⟩
  · rw [_stream_with_keepalives, hq, hpre,
      show Event.thinking :: (pre ++ [t]) = (Event.thinking :: pre) ++ [t] from rfl]
    exact List.getLast?_concat _
  · rw [_stream_with_keepalives, hq, hpre]
    have h0 : pre.countP Event.isTerminal = 0 :=
      List.countP_eq_zero.mpr (fun a ha => by simp [hpreterm a ha])
    simp [List.countP_cons, List.countP_append, hterm, h0]
    rfl

/-! ## C8: ack keepalive first; keepalives per silent interval -/

/-- C8: the consumer emits exactly one synthetic keepalive before the
producer starts (the head of every delivered stream is a keepalive), and
whenever the producer stays silent for `g` whole keepalive intervals
before the next queue item, the consumer emits exactly `g` keepalives
first and then continues with the queue untouched — no queued item is
consumed by a keepalive, and this repeats at every silent interval. -/
theorem keepalive_ack_and_silent_intervals :
    (∀ (gaps : List Nat) (items : List QItem),
        (_stream_with_keepalives gaps items).head? = some Event.thinking) ∧
    (∀ (g : Nat) (gs : List Nat) (items : List QItem), items ≠ [] →
        consume (g :: gs) items
          = List.replicate g Event.thinking ++ consume (0 :: gs) items) := by
  refine ⟨fun gaps items => rfl, fun g gs items hne => consume_gap_unroll g gs items hne⟩

/-- Witness for C8: two silent intervals before a `done` arrives produce
exactly two keepalives after the initial acknowledgement. -/
theorem keepalive_ack_and_silent_intervals_witness :
    (_stream_with_keepalives [2] [QItem.ev Event.done]).head? = some Event.thinking ∧
    consume [2] [QItem.ev Event.done]
      = List.replicate 2 Event.thinking ++ consume [0] [QItem.ev Event.done] := by
  obtain ⟨h1, h2⟩ := keepalive_ack_and_silent_intervals
  exact ⟨h1 [2] [QItem.ev Event.done], h2 2 [] [QItem.ev Event.done] (by simp)⟩

/-! ## C5: unknown session id — HTTP 404 before any stream, not an error event -/

/-- Counterexample to C5 as stated: for the request naming session "s1"
against the empty store, the backend does not open any event stream at all
(so in particular no stream whose terminal event is `error`): the chat
route rejects the request with an HTTP 404 before the tool-use loop ever
starts. -/
theorem unknown_session_error_event_counterexample :
    ¬ ∃ (evs : List Event) (m : String),
        chat_endpoint (fun _ => none) [] none true [] "s1" "hi" = Except.ok evs ∧
        evs.getLast? = some (Event.error m) := by
  rintro ⟨evs, m, h, _⟩
  simp [chat_endpoint, db.get_session, dict_get] at h

/-- C5 (amended): for every request naming a session id unknown to the
store, the failure is NotFound surfacing as an HTTP 404 rejection of the
chat route before any event stream is opened, so no tool-use loop runs or
aborts. -/
theorem unknown_session_http_404 (oracle : Oracle) (gaps : List Nat)
    (cache : Option (List Message)) (saveOk : Bool) (d : DB)
    (session_id message : String)
    (h : db.get_session d session_id = none) :
    chat_endpoint oracle gaps cache saveOk d session_id message
      = Except.error ⟨404, "Session not found"⟩ := by
  simp [chat_endpoint, h]

/-- Witness for the amended C5 at the empty store. -/
theorem unknown_session_http_404_witness :
    chat_endpoint (fun _ => none) [] none true [] "s1" "hi"
      = Except.error ⟨404, "Session not found"⟩ :=
  unknown_session_http_404 (fun _ => none) [] none true [] "s1" "hi" rfl

/-! ## C9: per-session query lock serialises round-sequences -/

theorem head?_drop_get {α : Type} (l : List α) (n : Nat) :
    (l.drop n).head? = l.get? n := by
  rw [List.get?_eq_getElem?]
  exact List.head?_drop l n

theorem drop_cons_of_get {α : Type} :
    ∀ (l : List α) (n : Nat) (a : α),
      l.get? n = some a → l.drop n = a :: l.drop (n + 1) := by
  intro l
  induction l with
  | nil => intro n a h; simp at h
  | cons x rest ih =>
      intro n a h
      cases n with
      | zero => simp at h; simp [h]
      | succ n =>
          simp only [List.get?_cons_succ] at h
          simpa using ih n a h

theorem get?_take_some {α : Type} {l : List α} {k n : Nat} {a : α}
    (h : (l.take k).get? n = some a) : n < k ∧ l.get? n = some a := by
  have hlt : n < (l.take k).length := by
    rcases List.get?_eq_some.mp h with ⟨hl, _⟩
    exact hl
  rw [List.length_take] at hlt
  have hnk : n < k := lt_of_lt_of_le hlt (min_le_left _ _)
  exact ⟨hnk, by rw [← List.get?_take hnk]; exact h⟩

theorem countP_take_le {α : Type} (p : α → Bool) (l : List α) (n : Nat) :
    (l.take n).countP p ≤ l.countP p :=
  (List.take_sublist n l).countP_le p

theorem get?_eq_of_countP_le_one {α : Type} (p : α → Bool) :
    ∀ (l : List α), l.countP p ≤ 1 →
      ∀ (i j : Nat) (a b : α), l.get? i = some a → p a = true →
        l.get? j = some b → p b = true → i = j := by
  intro l
  induction l with
  | nil => intro _ i j a b h; simp at h
  | cons x rest ih =>
      intro hc i j a b ha hpa hb hpb
      rw [List.countP_cons] at hc
      by_cases hx : p x = true
      · rw [hx] at hc
        simp only [if_true] at hc
        have hr0 : rest.countP p = 0 := by omega
        have hnone : ∀ (k : Nat) (c : α), rest.get? k = some c → p c = true → False := by
          intro k c hk hpc
          have : 0 < rest.countP p :=
            List.countP_pos_iff.mpr ⟨c, List.get?_mem hk, hpc⟩
          omega
        cases i with
        | zero =>
            cases j with
            | zero => rfl
            | succ j =>
                simp only [List.get?_cons_succ] at hb
                exact (hnone j b hb hpb).elim
        | succ i =>
            simp only [List.get?_cons_succ] at ha
            exact (hnone i a ha hpa).elim
      · have hx0 : p x = false := by
          cases hpx : p x
          · rfl
          · exact absurd hpx hx
        rw [hx0] at hc
        simp only [Bool.false_eq_true, if_false] at hc
        cases i with
        | zero =>
            simp only [List.get?_cons_zero, Option.some.injEq] at ha
            exact absurd (ha ▸ hpa) (by simp [hx0])
        | succ i =>
            cases j with
            | zero =>
                simp only [List.get?_cons_zero, Option.some.injEq] at hb
                exact absurd (hb ▸ hpb) (by simp [hx0])
            | succ j =>
                simp only [List.get?_cons_succ] at ha hb
                have := ih (by omega) i j a b ha hpa hb hpb
                omega

theorem reqs_cons_request (t : Nat) (rest : List LockStep) :
    reqs (LockStep.request t :: rest) = t :: reqs rest := by
  simp [reqs, List.filterMap_cons, reqTask]

theorem reqs_cons_act (t : Nat) (a : ChatStep) (rest : List LockStep) :
    reqs (LockStep.act t a :: rest) = reqs rest := by
  simp [reqs, List.filterMap_cons, reqTask]

theorem reqs_cons_release (t : Nat) (rest : List LockStep) :
    reqs (LockStep.release t :: rest) = reqs rest := by
  simp [reqs, List.filterMap_cons, reqTask]

theorem reqs_cons_remove (rest : List LockStep) :
    reqs (LockStep.remove :: rest) = reqs rest := by
  simp [reqs, List.filterMap_cons, reqTask]

theorem rels_cons_request (t : Nat) (rest : List LockStep) :
    rels (LockStep.request t :: rest) = rels rest := by
  simp [rels, List.countP_cons, LockStep.isRelease]

theorem rels_cons_act (t : Nat) (a : ChatStep) (rest : List LockStep) :
    rels (LockStep.act t a :: rest) = rels rest := by
  simp [rels, List.countP_cons, LockStep.isRelease]

theorem rels_cons_release (t : Nat) (rest : List LockStep) :
    rels (LockStep.release t :: rest) = rels rest + 1 := by
  simp [rels, List.countP_cons, LockStep.isRelease]

theorem lockRun_append : ∀ (xs ys : List LockStep) (q : List Nat),
    lockRun q (xs ++ ys) = (lockRun q xs).bind fun qm => lockRun qm ys := by
  intro xs
  induction xs with
  | nil => intro ys q; simp [lockRun]
  | cons s rest ih =>
      intro ys q
      cases s with
      | request t =>
          simp only [List.cons_append, lockRun]
          exact ih ys (q ++ [t])
      | act t a =>
          simp only [List.cons_append, lockRun]
          by_cases h : q.head? = some t
          · rw [if_pos h, if_pos h]; exact ih ys q
          · rw [if_neg h, if_neg h]; rfl
      | release t =>
          simp only [List.cons_append, lockRun]
          by_cases h : q.head? = some t
          · rw [if_pos h, if_pos h]; exact ih ys q.tail
          · rw [if_neg h, if_neg h]; rfl
      | remove => simp [lockRun]

theorem lockRun_char : ∀ (xs : List LockStep) (q0 qf : List Nat),
    lockRun q0 xs = some qf → qf = (q0 ++ reqs xs).drop (rels xs) := by
  intro xs
  induction xs with
  | nil =>
      intro q0 qf h
      rw [lockRun] at h
      injection h with h2
      rw [← h2]
      simp [reqs, rels]
  | cons s rest ih =>
      intro q0 qf h
      cases s with
      | request t =>
          rw [lockRun] at h
          rw [ih _ _ h, reqs_cons_request, rels_cons_request]
          simp
      | act t a =>
          rw [lockRun] at h
          by_cases hh : q0.head? = some t
          · rw [if_pos hh] at h
            rw [ih _ _ h, reqs_cons_act, rels_cons_act]
          · rw [if_neg hh] at h
            exact absurd h (by simp)
      | release t =>
          rcases q0 with _ | ⟨x, q0t⟩
          · rw [lockRun, if_neg (by simp)] at h
            exact absurd h (by simp)
          · rw [lockRun] at h
            by_cases hh : (x :: q0t).head? = some t
            · rw [if_pos hh] at h
              rw [reqs_cons_release, rels_cons_release, ih _ _ h]
              simp [List.drop_succ_cons]
            · rw [if_neg hh] at h
              exact absurd h (by simp)
      | remove =>
          rw [lockRun] at h
          exact absurd h (by simp)

theorem rels_take_mono (tr : List LockStep) {m n : Nat} (h : m ≤ n) :
    rels (tr.take m) ≤ rels (tr.take n) := by
  have he : tr.take m = (tr.take n).take m := by
    rw [List.take_take, Nat.min_eq_left h]
  rw [rels, rels, he]
  exact countP_take_le _ _ _

theorem countP_reqs (t : Nat) : ∀ (xs : List LockStep),
    (reqs xs).countP (fun u => t == u) = xs.countP (LockStep.isReqOf t) := by
  intro xs
  induction xs with
  | nil => rfl
  | cons s rest ih =>
      cases s with
      | request u =>
          rw [reqs_cons_request, List.countP_cons, List.countP_cons, ih]
          rfl
      | act u a =>
          rw [reqs_cons_act, List.countP_cons, ih]
          simp [LockStep.isReqOf]
      | release u =>
          rw [reqs_cons_release, List.countP_cons, ih]
          simp [LockStep.isReqOf]
      | remove =>
          rw [reqs_cons_remove, List.countP_cons, ih]
          simp [LockStep.isReqOf]

theorem act_head (tr : List LockStep) (qfin : List Nat)
    (hrun : lockRun [] tr = some qfin) {m t : Nat} {a : ChatStep}
    (hm : tr.get? m = some (LockStep.act t a)) :
    ((reqs (tr.take m)).drop (rels (tr.take m))).head? = some t := by
  have hsplit : tr.take m ++ tr.drop m = tr := List.take_append_drop m tr
  rw [← hsplit, lockRun_append] at hrun
  rcases h1 : lockRun [] (tr.take m) with _ | Qm
  · rw [h1] at hrun; simp at hrun
  · rw [h1] at hrun
    simp only [Option.some_bind] at hrun
    rw [drop_cons_of_get tr m _ hm, lockRun] at hrun
    by_cases hh : Qm.head? = some t
    · have hchar := lockRun_char _ _ _ h1
      rw [hchar] at hh
      simpa using hh
    · rw [if_neg hh] at hrun
      exact absurd hrun (by simp)

theorem reqs_take_decomp (tr : List LockStep) {i t : Nat}
    (hi : tr.get? i = some (LockStep.request t)) {n : Nat} (hn : i < n) :
    ∃ zs, reqs (tr.take n) = reqs (tr.take i) ++ t :: zs := by
  have h1 : tr.take n = tr.take i ++ (tr.drop i).take (n - i) := by
    rw [show n = i + (n - i) from (by omega), List.take_add]
    congr 2
    omega
  have h2 : tr.drop i = LockStep.request t :: tr.drop (i + 1) :=
    drop_cons_of_get tr i _ hi
  have h3 : (tr.drop i).take (n - i)
      = LockStep.request t :: (tr.drop (i + 1)).take (n - i - 1) := by
    rw [h2, show n - i = (n - i - 1) + 1 from (by omega)]
    rfl
  refine ⟨reqs ((tr.drop (i + 1)).take (n - i - 1)), ?_⟩
  rw [h1, h3]
  simp [reqs, List.filterMap_append, List.filterMap_cons, reqTask]

theorem act_implies_request_before (tr : List LockStep) (qfin : List Nat)
    (hrun : lockRun [] tr = some qfin) {m t : Nat} {a : ChatStep}
    (hm : tr.get? m = some (LockStep.act t a)) {i : Nat}
    (hi : tr.get? i = some (LockStep.request t))
    (hu : tr.countP (LockStep.isReqOf t) ≤ 1) : i < m := by
  have hhead := act_head tr qfin hrun hm
  rw [head?_drop_get] at hhead
  have hmem : t ∈ reqs (tr.take m) := List.get?_mem hhead
  rw [reqs] at hmem
  obtain ⟨s, hs, hfs⟩ := List.mem_filterMap.mp hmem
  have hst : s = LockStep.request t := by
    cases s with
    | request u => simp [reqTask] at hfs; rw [hfs]
    | act u a2 => simp [reqTask] at hfs
    | release u => simp [reqTask] at hfs
    | remove => simp [reqTask] at hfs
  obtain ⟨n, hn⟩ := List.mem_iff_get?.mp hs
  obtain ⟨hnm, hn2⟩ := get?_take_some hn
  rw [hst] at hn2
  have heq := get?_eq_of_countP_le_one (LockStep.isReqOf t) tr hu n i _ _
    hn2 (by simp [LockStep.isReqOf]) hi (by simp [LockStep.isReqOf])
  omega

/-- Supporting result: on a single persistent lock object — i.e. in every
trace the single-lock semantics `lockRun` accepts, which excludes any
`remove_session` interference — round-sequences of two callers who each
request once never interleave and are served in arrival order. The claim
itself fails on the code because `remove_session` pops `_query_locks`
mid-flight; see the trace accepted by `lockRunFull` below. -/
theorem query_lock_serialises_callers_in_arrival_order
    (tr : List LockStep) (qfin : List Nat)
    (hrun : lockRun [] tr = some qfin)
    (t1 t2 i j k l : Nat) (a b : ChatStep)
    (hne : t1 ≠ t2)
    (hi : tr.get? i = some (LockStep.request t1))
    (hj : tr.get? j = some (LockStep.request t2))
    (hu1 : tr.countP (LockStep.isReqOf t1) ≤ 1)
    (hu2 : tr.countP (LockStep.isReqOf t2) ≤ 1)
    (hij : i < j)
    (hk : tr.get? k = some (LockStep.act t1 a))
    (hl : tr.get? l = some (LockStep.act t2 b)) :
    k < l := by
  have hik : i < k := act_implies_request_before tr qfin hrun hk hi hu1
  have hjl : j < l := act_implies_request_before tr qfin hrun hl hj hu2
  -- the release counter at an act of t equals the position of t's request
  have hheadk := act_head tr qfin hrun hk
  have hheadl := act_head tr qfin hrun hl
  rw [head?_drop_get] at hheadk hheadl
  obtain ⟨zs, hz⟩ := reqs_take_decomp tr hi hik
  obtain ⟨ws, hw⟩ := reqs_take_decomp tr hj hjl
  have hatk : (reqs (tr.take k)).get? (reqs (tr.take i)).length = some t1 := by
    rw [hz, List.get?_append_right (le_refl _)]
    simp
  have hatl : (reqs (tr.take l)).get? (reqs (tr.take j)).length = some t2 := by
    rw [hw, List.get?_append_right (le_refl _)]
    simp
  have hck : (reqs (tr.take k)).countP (fun u => t1 == u) ≤ 1 := by
    rw [countP_reqs]
    exact le_trans (countP_take_le _ _ _) hu1
  have hcl : (reqs (tr.take l)).countP (fun u => t2 == u) ≤ 1 := by
    rw [countP_reqs]
    exact le_trans (countP_take_le _ _ _) hu2
  have hq1 : rels (tr.take k) = (reqs (tr.take i)).length :=
    get?_eq_of_countP_le_one _ _ hck _ _ _ _ hheadk (by simp) hatk (by simp)
  have hq2 : rels (tr.take l) = (reqs (tr.take j)).length :=
    get?_eq_of_countP_le_one _ _ hcl _ _ _ _ hheadl (by simp) hatl (by simp)
  -- t1's request position is strictly below t2's
  obtain ⟨vs, hv⟩ := reqs_take_decomp tr hi hij
  have hlen : (reqs (tr.take i)).length < (reqs (tr.take j)).length := by
    rw [hv]
    simp
  -- conclude by monotonicity of the release counter
  by_contra hkl
  push_neg at hkl
  have hne2 : l ≠ k := by
    intro he
    rw [he, hk] at hl
    simp at hl
    exact hne hl.1
  have hlk : l < k := lt_of_le_of_ne hkl hne2
  have hmono := rels_take_mono tr (le_of_lt hlk)
  rw [hq1, hq2] at hmono
  omega

/-- Concrete instance of the single-lock serialisation result: in the
six-step remove-free trace where caller 1 requests, caller 2 requests
while 1 holds the lock, 1 acts and releases, then 2 acts and releases,
the act of caller 1 (index 2) precedes the act of caller 2 (index 4). -/
theorem query_lock_serialises_callers_in_arrival_order_witness : (2 : Nat) < 4 :=
  query_lock_serialises_callers_in_arrival_order
    [LockStep.request 1, LockStep.request 2,
     LockStep.act 1 (ChatStep.emit Event.done), LockStep.release 1,
     LockStep.act 2 (ChatStep.emit Event.done), LockStep.release 2]
    [] rfl 1 2 0 1 2 4 (ChatStep.emit Event.done) (ChatStep.emit Event.done)
    (by decide) rfl rfl (by decide) (by decide) (by decide) rfl rfl

/-- C9: the serialisation claim fails on the code. `remove_session`
(session_manager.py) pops the session's lock from `_query_locks`; it is
called from `_run_chat`'s exception handler and from the idle-eviction
sweep. A waiter still references the popped lock object, while the next
caller's `setdefault` creates a fresh lock, so two callers can hold
different locks for the same session. The trace `removeTrace` — caller 1
errors out and is removed while caller 2 waits, caller 3 then arrives —
is accepted by the lock semantics `lockRunFull`, yet the round-sequence
steps of callers 2 and 3 interleave (indices 6, 7, 8), violating both
"rounds never interleave" and "the second caller's round-sequence does
not begin until the first has fully completed". -/
theorem query_lock_interleaving_after_remove :
    (lockRunFull ([], []) removeTrace).isSome = true ∧
    removeTrace.get? 6 = some (LockStep.act 2 (ChatStep.emit Event.done)) ∧
    removeTrace.get? 7 = some (LockStep.act 3 (ChatStep.emit Event.done)) ∧
    removeTrace.get? 8 = some (LockStep.act 2 (ChatStep.emit Event.done)) :=
  ⟨rfl, rfl, rfl, rfl⟩
